import Mathlib

/-!
Verification development for the ci-analysis repository.

Shallow embedding conventions:
* timestamps are rational numbers of seconds (UTC epoch offsets); pandas
  operations on second-resolution DatetimeIndex values are modelled over ℚ;
* series (pandas Series with a timestamp index) are lists of
  (timestamp, value) pairs, kept in index order;
* float arithmetic is modelled exactly over ℚ;
* code that raises is modelled with Except / Option.
-/

namespace CiAnalysis

/-- Error outcomes of calc_rolling_event_rate (src/cia/analysis.py):
`badUntil` is the explicit `raise Exception("calc_rolling_event_rate: bad
input ...")` for a reference timestamp older than the newest sample;
`emptyInput` / `emptyAfterTrim` model the IndexError that an empty series
produces further down (`iloc[-1]` on an empty series). -/
inductive CalcError
  | emptyInput
  | badUntil
  | emptyAfterTrim
deriving DecidableEq

/-- Insert a rational into a list sorted ascending (helper for modelling
pandas operations that sort by index). -/
def insertAsc (x : ℚ) : List ℚ → List ℚ
  | [] => [x]
  | y :: ys => if x ≤ y then x :: y :: ys else y :: insertAsc x ys

/-- Sort a list of rationals ascending (insertion sort). -/
def sortAsc (l : List ℚ) : List ℚ := l.foldr insertAsc []

/-- `series.index.max()` on a non-empty series of raw timestamps. -/
def maxTs : List ℚ → ℚ
  | [] => 0
  | t :: rest => rest.foldl max t

/-- Smallest timestamp occurring in a series (pandas `index.min()`). -/
def minTime : List (ℚ × ℚ) → ℚ
  | [] => 0
  | p :: rest => (rest.map Prod.fst).foldl min p.1

/-- Largest timestamp occurring in a series (pandas `index.max()`). -/
def maxTime : List (ℚ × ℚ) → ℚ
  | [] => 0
  | p :: rest => (rest.map Prod.fst).foldl max p.1

/-- Timestamp of the positionally last sample (equals `index.max()` for the
sorted series this pipeline constructs). -/
def lastTime (e : List (ℚ × ℚ)) : ℚ :=
  match e.getLast? with
  | some p => p.1
  | none => 0

/-- The arithmetic grid `s, s + step, ..., s + step * n`. -/
def gridFrom (s step : ℚ) : ℕ → List ℚ
  | 0 => [s]
  | n + 1 => s :: gridFrom (s + step) step n

/-- `pd.date_range(start, end, freq)`: the points `start + k*step ≤ end`
(empty when `end < start`). -/
def dateRange (s e step : ℚ) : List ℚ :=
  if 0 < step ∧ s ≤ e then gridFrom s step ⌊(e - s) / step⌋.toNat else []

/-- Hour-bin index of a timestamp: `resample("60min")` with the default
left-closed, left-labelled, start-of-day-anchored bins assigns `t` to the
bin starting at `3600 * (t / 3600 rounded down)`. -/
def binIdx (t : ℚ) : ℤ := ⌊t / 3600⌋

/-- Value of a series at an exact timestamp, 0 when absent (the
`fill_value=0` reindexing view used by `asfreq`). -/
def seriesAt (e : List (ℚ × ℚ)) (t : ℚ) : ℚ :=
  match e.find? (fun p => p.1 = t) with
  | some p => p.2
  | none => 0

/-- `e.asfreq("60min", fill_value=0)`: reindex onto the hourly grid running
from the positionally first to the positionally last index entry, filling
missing grid points with 0. -/
def asfreq (e : List (ℚ × ℚ)) : List (ℚ × ℚ) :=
  match e with
  | [] => []
  | p :: rest =>
    (dateRange p.1 (lastTime (p :: rest)) 3600).map
      (fun t => (t, seriesAt (p :: rest) t))

/-- `series.groupby(series.index).size()`: number of events per distinct
timestamp, ordered by timestamp (groupby sorts its keys; `dedup` applied to
the sorted list keeps one representative per run of duplicates). -/
def groupCounts (ts : List ℚ) : List (ℚ × ℚ) :=
  (sortAsc ts).dedup.map (fun t => (t, (ts.count t : ℚ)))

/-- Sum of the values of `e` that fall into hour bin `b`. -/
def binSum (e : List (ℚ × ℚ)) (b : ℤ) : ℚ :=
  ((e.filter (fun p => binIdx p.1 = b)).map Prod.snd).sum

/-- `e.resample("60min").sum()`: hourly bins from the bin of the smallest
timestamp to the bin of the largest, each holding the sum of the counts that
fall into it (an empty bin sums to 0). -/
def resampleSum (e : List (ℚ × ℚ)) : List (ℚ × ℚ) :=
  match e with
  | [] => []
  | _ =>
    (dateRange (3600 * (binIdx (minTime e) : ℚ)) (3600 * (binIdx (maxTime e) : ℚ)) 3600).map
      (fun t => (t, binSum e (binIdx t)))

/-- The `if upsample_with_zeros:` block of calc_rolling_event_rate: when
requested, optionally append a single zero sample at
`upsample_with_zeros_until` (comparing it against the raw series maximum
`origMax`: equal skips, older raises, newer appends) and then gap-fill with
`asfreq`; when not requested the series passes through untouched. -/
def upsampleStage (origMax : ℚ) (up : Bool) (u? : Option ℚ)
    (e : List (ℚ × ℚ)) : Except CalcError (List (ℚ × ℚ)) :=
  if up then
    match u? with
    | none => .ok (asfreq e)
    | some u =>
      if origMax = u then .ok (asfreq e)
      else if u < origMax then .error .badUntil
      else .ok (asfreq (e ++ [(u, 0)]))
  else .ok e

/-- Stages of calc_rolling_event_rate up to and including gap filling:
group the raw timestamps, downsample into hourly bins, then the optional
zero-upsampling stage. -/
def eventCountStage (ts : List ℚ) (up : Bool) (u? : Option ℚ) :
    Except CalcError (List (ℚ × ℚ)) :=
  if ts = [] then .error .emptyInput
  else upsampleStage (maxTs ts) up u? (resampleSum (groupCounts ts))

/-- `e.rolling(window="Ns", min_periods=1).sum()`: at each sample, the sum
of the values whose timestamps lie in the left-open window
`(t - w, t]` (pandas offset windows are right-closed). -/
def rollingSumSeries (w : ℕ) (e : List (ℚ × ℚ)) : List (ℚ × ℚ) :=
  e.map (fun p =>
    (p.1, ((e.filter (fun q => q.1 ≤ p.1 ∧ p.1 - q.1 < (w : ℚ))).map
      Prod.snd).sum))

/-- `86400 * s / float(window_width_seconds)`: normalize the rolling sums to
events per day. -/
def rateSeries (w : ℕ) (e : List (ℚ × ℚ)) : List (ℚ × ℚ) :=
  (rollingSumSeries w e).map (fun p => (p.1, 86400 * p.2 / (w : ℚ)))

/-- Shift the index left by half the window width
(`index - pd.DateOffset(seconds=window_width_seconds / 2.0)`). -/
def recenter (w : ℕ) (e : List (ℚ × ℚ)) : List (ℚ × ℚ) :=
  e.map (fun p => (p.1 - (w : ℚ) / 2, p.2))

/-- Drop the first `int(window_width_seconds / (60 * 60))` samples
(positional slice `[k:]`). -/
def trimStage (w : ℕ) (e : List (ℚ × ℚ)) : List (ℚ × ℚ) :=
  e.drop (w / 3600)

/-- The centered, trimmed rolling rate series built from a gap-filled event
count series: everything of calc_rolling_event_rate between gap filling and
the forward-fill extension. -/
def trimmedRateSeries (w : ℕ) (e1 : List (ℚ × ℚ)) : List (ℚ × ℚ) :=
  trimStage w (recenter w (rateSeries w e1))

/-- Final one second shift of the whole index
(`index + pd.to_timedelta("1 sec")`). -/
def shiftOneSec (e : List (ℚ × ℚ)) : List (ℚ × ℚ) :=
  e.map (fun p => (p.1 + 1, p.2))

/-- calc_rolling_event_rate (src/cia/analysis.py lines 32-211): group raw
event timestamps, downsample to hourly bins, optionally zero-upsample, take
the windowed rolling sum, normalize to a per-day rate, re-center by half
the window width, trim the leading underfilled samples, forward-fill the
last value at hourly resolution up to the newest gap-filled sample, and
finally shift every timestamp forward by one second. -/
def calc_rolling_event_rate (ts : List ℚ) (w : ℕ) (up : Bool)
    (u? : Option ℚ) : Except CalcError (List (ℚ × ℚ)) :=
  match eventCountStage ts up u? with
  | .error er => .error er
  | .ok e1 =>
    match (trimmedRateSeries w e1).getLast? with
    | none => .error .emptyAfterTrim
    | some L =>
      .ok (shiftOneSec (trimmedRateSeries w e1 ++
        (dateRange L.1 (lastTime e1) 3600).map (fun t => (t, L.2))))

/-! Unfolding lemmas for the estimator pipeline. -/

theorem eventCountStage_of_ne_nil {ts : List ℚ} (up : Bool) (u? : Option ℚ)
    (h : ts ≠ []) :
    eventCountStage ts up u? =
      upsampleStage (maxTs ts) up u? (resampleSum (groupCounts ts)) := by
  rw [eventCountStage, if_neg h]

theorem calc_of_error {ts : List ℚ} {w : ℕ} {up : Bool} {u? : Option ℚ}
    {er : CalcError} (h : eventCountStage ts up u? = .error er) :
    calc_rolling_event_rate ts w up u? = .error er := by
  rw [calc_rolling_event_rate, h]

theorem calc_of_ok {ts : List ℚ} {w : ℕ} {up : Bool} {u? : Option ℚ}
    {e1 : List (ℚ × ℚ)} {L : ℚ × ℚ}
    (h : eventCountStage ts up u? = .ok e1)
    (hL : (trimmedRateSeries w e1).getLast? = some L) :
    calc_rolling_event_rate ts w up u? =
      .ok (shiftOneSec (trimmedRateSeries w e1 ++
        (dateRange L.1 (lastTime e1) 3600).map (fun t => (t, L.2)))) := by
  rw [calc_rolling_event_rate, h]
  dsimp only
  rw [hL]

theorem calc_ok_shape {ts : List ℚ} {w : ℕ} {up : Bool} {u? : Option ℚ}
    {e1 out : List (ℚ × ℚ)}
    (h : eventCountStage ts up u? = .ok e1)
    (hout : calc_rolling_event_rate ts w up u? = .ok out) :
    ∃ L, (trimmedRateSeries w e1).getLast? = some L ∧
      out = shiftOneSec (trimmedRateSeries w e1 ++
        (dateRange L.1 (lastTime e1) 3600).map (fun t => (t, L.2))) := by
  rw [calc_rolling_event_rate, h] at hout
  dsimp only at hout
  cases hL : (trimmedRateSeries w e1).getLast? with
  | none => rw [hL] at hout; exact absurd hout (by simp)
  | some L =>
    rw [hL] at hout
    exact ⟨L, rfl, by injection hout with h2; exact h2.symm⟩

theorem dateRange_eq_grid {s e step : ℚ} {n : ℕ} (h1 : 0 < step)
    (h2 : s ≤ e) (h3 : ⌊(e - s) / step⌋ = (n : ℤ)) :
    dateRange s e step = gridFrom s step n := by
  rw [dateRange, if_pos ⟨h1, h2⟩, h3, Int.toNat_natCast]

/-! C2: behaviour of the zero-upsampling reference timestamp. -/

/-- C2: with zero-upsampling enabled and a reference end-timestamp, the
estimator (1) raises the defined error when the reference is strictly
earlier than the latest input timestamp, (2) appends nothing when the
reference equals the raw series maximum (the stage behaves as if no
reference were given), and (3) appends exactly one synthetic zero-count
sample at the reference, before gap filling, when the reference is later. -/
theorem upsample_with_zeros_until_cases :
    (∀ (ts : List ℚ) (w : ℕ) (u : ℚ), ts ≠ [] → u < maxTs ts →
      calc_rolling_event_rate ts w true (some u) = .error .badUntil) ∧
    (∀ (m : ℚ) (e : List (ℚ × ℚ)),
      upsampleStage m true (some m) e = upsampleStage m true none e) ∧
    (∀ (m u : ℚ) (e : List (ℚ × ℚ)), m < u →
      upsampleStage m true (some u) e = .ok (asfreq (e ++ [(u, 0)]))) := by
  refine ⟨fun ts w u hne hlt => ?_, fun m e => ?_, fun m u e hlt => ?_⟩
  · refine calc_of_error ?_
    rw [eventCountStage_of_ne_nil true (some u) hne, upsampleStage]
    simp only [if_true]
    rw [if_neg (ne_of_gt hlt), if_pos hlt]
  · rw [upsampleStage, upsampleStage]
    simp only [if_true]
  · rw [upsampleStage]
    simp only [if_true]
    rw [if_neg (ne_of_lt hlt), if_neg (lt_asymm hlt)]

/-- Witness for `upsample_with_zeros_until_cases` at concrete inputs. -/
theorem upsample_with_zeros_until_cases_witness :
    calc_rolling_event_rate [0, 3600] 60 true (some 100) = .error .badUntil ∧
    upsampleStage 5 true (some 5) [] = upsampleStage 5 true none [] ∧
    upsampleStage 0 true (some 1) [(0, 1)] = .ok (asfreq ([(0, 1)] ++ [(1, 0)])) :=
  ⟨upsample_with_zeros_until_cases.1 [0, 3600] 60 100 (by simp)
      (by norm_num [maxTs, max_def]),
    upsample_with_zeros_until_cases.2.1 5 [],
    upsample_with_zeros_until_cases.2.2 0 1 [(0, 1)] (by norm_num)⟩

/-! C1: normalization of rolling sums, and the uniform-spacing scenario. -/

theorem trimmed_value_from_rolling_sum {w : ℕ} {e1 : List (ℚ × ℚ)}
    {r : ℚ × ℚ} (hr : r ∈ trimmedRateSeries w e1) :
    ∃ q ∈ rollingSumSeries w e1, r.2 = 86400 * q.2 / (w : ℚ) := by
  have h1 : r ∈ recenter w (rateSeries w e1) :=
    List.mem_of_mem_drop hr
  obtain ⟨x, hx, hxr⟩ := List.mem_map.mp h1
  obtain ⟨y, hy, hyx⟩ := List.mem_map.mp hx
  refine ⟨y, hy, ?_⟩
  rw [← hxr, ← hyx]

theorem upsampleStage_false (m : ℚ) (u? : Option ℚ) (e : List (ℚ × ℚ)) :
    upsampleStage m false u? e = .ok e := rfl

theorem resampleSum_cons (p : ℚ × ℚ) (rest : List (ℚ × ℚ)) :
    resampleSum (p :: rest) =
      (dateRange (3600 * (binIdx (minTime (p :: rest)) : ℚ))
        (3600 * (binIdx (maxTime (p :: rest)) : ℚ)) 3600).map
        (fun t => (t, binSum (p :: rest) (binIdx t))) := rfl

set_option maxHeartbeats 1000000 in
theorem eval_eventCountStage_uniform4 :
    eventCountStage [0, 3600, 7200, 10800] false none =
      .ok [(0, 1), (3600, 1), (7200, 1), (10800, 1)] := by
  have hG : groupCounts [0, 3600, 7200, 10800] =
      [(0, 1), (3600, 1), (7200, 1), (10800, 1)] := by
    norm_num [groupCounts, sortAsc, insertAsc, List.dedup_cons_of_mem,
      List.dedup_cons_of_not_mem, List.count_cons]
  have hmin : minTime [((0 : ℚ), (1 : ℚ)), (3600, 1), (7200, 1), (10800, 1)] = 0 := by
    norm_num [minTime, min_def]
  have hmax : maxTime [((0 : ℚ), (1 : ℚ)), (3600, 1), (7200, 1), (10800, 1)] = 10800 := by
    norm_num [maxTime, max_def]
  have hR : resampleSum [((0 : ℚ), (1 : ℚ)), (3600, 1), (7200, 1), (10800, 1)] =
      [(0, 1), (3600, 1), (7200, 1), (10800, 1)] := by
    rw [resampleSum_cons, hmin, hmax]
    have hD : dateRange (3600 * ((binIdx (0 : ℚ)) : ℚ))
        (3600 * ((binIdx (10800 : ℚ)) : ℚ)) 3600 = gridFrom 0 3600 3 := by
      have h0 : (3600 * ((binIdx (0 : ℚ)) : ℚ)) = 0 := by norm_num [binIdx]
      have h3 : (3600 * ((binIdx (10800 : ℚ)) : ℚ)) = 10800 := by
        norm_num [binIdx]
      rw [h0, h3]
      exact dateRange_eq_grid (by norm_num) (by norm_num) (by norm_num)
    rw [hD]
    norm_num [gridFrom, binSum, binIdx, List.filter_cons]
  rw [eventCountStage_of_ne_nil false none (by simp), hG, hR, upsampleStage_false]

theorem eval_calc_uniform4 :
    calc_rolling_event_rate [0, 3600, 7200, 10800] 7200 false none =
      .ok [(3601, 24), (7201, 24), (7201, 24), (10801, 24)] := by
  have hT : trimmedRateSeries 7200 [(0, 1), (3600, 1), (7200, 1), (10800, 1)] =
      [(3600, 24), (7200, 24)] := by
    norm_num [trimmedRateSeries, trimStage, recenter, rateSeries,
      rollingSumSeries, List.filter_cons]
  have hL : (trimmedRateSeries 7200
      [(0, 1), (3600, 1), (7200, 1), (10800, 1)]).getLast? =
      some ((7200 : ℚ), (24 : ℚ)) := by rw [hT]; rfl
  have hD : dateRange (7200 : ℚ)
      (lastTime [(0, 1), (3600, 1), (7200, 1), (10800, 1)]) 3600 =
      gridFrom 7200 3600 1 := by
    refine dateRange_eq_grid (by norm_num) ?_ ?_ <;> norm_num [lastTime]
  rw [calc_of_ok eval_eventCountStage_uniform4 hL, hT]
  dsimp only
  rw [hD]
  norm_num [gridFrom, shiftOneSec]

/-- C1 (amended): every value produced by the estimator equals
`86400 * rolling_sum / window_width_seconds`; and for a sustained stream of
events uniformly spaced `w / N` seconds apart over a span exceeding the
window (here N = 2, w = 7200 s, events every 3600 s), every output sample
equals the steady-state rate `86400 * N / w` exactly. -/
theorem event_rate_normalization :
    (∀ (ts : List ℚ) (w : ℕ) (up : Bool) (u? : Option ℚ)
      (e1 out : List (ℚ × ℚ)),
      eventCountStage ts up u? = .ok e1 →
      calc_rolling_event_rate ts w up u? = .ok out →
      ∀ p ∈ out, ∃ q ∈ rollingSumSeries w e1, p.2 = 86400 * q.2 / (w : ℚ)) ∧
    (∃ o, calc_rolling_event_rate [0, 3600, 7200, 10800] 7200 false none = .ok o ∧
      ∀ p ∈ o, p.2 = 86400 * 2 / 7200) := by
  constructor
  · intro ts w up u? e1 out h hout p hp
    obtain ⟨L, hL, hshape⟩ := calc_ok_shape h hout
    rw [hshape] at hp
    obtain ⟨r, hr, hrp⟩ := List.mem_map.mp hp
    rw [← hrp]
    show ∃ q ∈ rollingSumSeries w e1, r.2 = 86400 * q.2 / (w : ℚ)
    rcases List.mem_append.mp hr with hr1 | hr2
    · exact trimmed_value_from_rolling_sum hr1
    · obtain ⟨t, _, ht⟩ := List.mem_map.mp hr2
      have hLmem : L ∈ trimmedRateSeries w e1 := by
        obtain ⟨hne, hEq⟩ :=
          List.mem_getLast?_eq_getLast (Option.mem_def.mpr hL)
        rw [hEq]
        exact List.getLast_mem hne
      obtain ⟨q, hq, hqL⟩ := trimmed_value_from_rolling_sum hLmem
      refine ⟨q, hq, ?_⟩
      rw [← ht]
      exact hqL
  · exact ⟨[(3601, 24), (7201, 24), (7201, 24), (10801, 24)],
      eval_calc_uniform4, by norm_num⟩

/-- Witness for `event_rate_normalization` at a concrete input. -/
theorem event_rate_normalization_witness :
    ∀ p ∈ [((3601 : ℚ), (24 : ℚ)), (7201, 24), (7201, 24), (10801, 24)],
      ∃ q ∈ rollingSumSeries 7200 [((0 : ℚ), (1 : ℚ)), (3600, 1), (7200, 1), (10800, 1)],
        p.2 = 86400 * q.2 / ((7200 : ℕ) : ℚ) :=
  event_rate_normalization.1 [0, 3600, 7200, 10800] 7200 false none
    [(0, 1), (3600, 1), (7200, 1), (10800, 1)]
    [(3601, 24), (7201, 24), (7201, 24), (10801, 24)]
    eval_eventCountStage_uniform4 eval_calc_uniform4

set_option maxHeartbeats 1000000 in
theorem eval_eventCountStage_uniform3 :
    eventCountStage [3000, 5400, 7800] false none =
      .ok [(0, 1), (3600, 1), (7200, 1)] := by
  have hG : groupCounts [3000, 5400, 7800] =
      [(3000, 1), (5400, 1), (7800, 1)] := by
    norm_num [groupCounts, sortAsc, insertAsc, List.dedup_cons_of_mem,
      List.dedup_cons_of_not_mem, List.count_cons]
  have hR : resampleSum [((3000 : ℚ), (1 : ℚ)), (5400, 1), (7800, 1)] =
      [(0, 1), (3600, 1), (7200, 1)] := by
    rw [resampleSum_cons]
    have hmin : minTime [((3000 : ℚ), (1 : ℚ)), (5400, 1), (7800, 1)] = 3000 := by
      norm_num [minTime, min_def]
    have hmax : maxTime [((3000 : ℚ), (1 : ℚ)), (5400, 1), (7800, 1)] = 7800 := by
      norm_num [maxTime, max_def]
    rw [hmin, hmax]
    have hD : dateRange (3600 * ((binIdx (3000 : ℚ)) : ℚ))
        (3600 * ((binIdx (7800 : ℚ)) : ℚ)) 3600 = gridFrom 0 3600 2 := by
      have h0 : (3600 * ((binIdx (3000 : ℚ)) : ℚ)) = 0 := by norm_num [binIdx]
      have h2 : (3600 * ((binIdx (7800 : ℚ)) : ℚ)) = 7200 := by
        norm_num [binIdx]
      rw [h0, h2]
      exact dateRange_eq_grid (by norm_num) (by norm_num) (by norm_num)
    rw [hD]
    norm_num [gridFrom, binSum, binIdx, List.filter_cons]
  rw [eventCountStage_of_ne_nil false none (by simp), hG, hR, upsampleStage_false]

theorem eval_calc_uniform3 :
    calc_rolling_event_rate [3000, 5400, 7800] 7200 false none =
      .ok [(3601, 24), (3601, 24), (7201, 24)] := by
  have hT : trimmedRateSeries 7200 [(0, 1), (3600, 1), (7200, 1)] =
      [(3600, 24)] := by
    norm_num [trimmedRateSeries, trimStage, recenter, rateSeries,
      rollingSumSeries, List.filter_cons]
  have hL : (trimmedRateSeries 7200 [(0, 1), (3600, 1), (7200, 1)]).getLast? =
      some ((3600 : ℚ), (24 : ℚ)) := by rw [hT]; rfl
  have hD : dateRange (3600 : ℚ) (lastTime [(0, 1), (3600, 1), (7200, 1)]) 3600 =
      gridFrom 3600 3600 1 := by
    refine dateRange_eq_grid (by norm_num) ?_ ?_ <;> norm_num [lastTime]
  rw [calc_of_ok eval_eventCountStage_uniform3 hL, hT]
  dsimp only
  rw [hD]
  norm_num [gridFrom, shiftOneSec]

/-- C1 counterexample: with exactly N = 3 events spaced `w / N = 2400` s
apart (events at 3000, 5400, 7800 with w = 7200 s), no retained output
sample attains the claimed steady-state rate `86400 * 3 / 7200 = 36`: all
output values are 24, because the leading-edge trim drops precisely the
samples whose window covers all three events. -/
theorem event_rate_uniform_claim_false :
    calc_rolling_event_rate [3000, 5400, 7800] 7200 false none =
      .ok [(3601, 24), (3601, 24), (7201, 24)] ∧
    ∀ p ∈ [((3601 : ℚ), (24 : ℚ)), (3601, 24), (7201, 24)],
      p.2 ≠ 86400 * 3 / 7200 :=
  ⟨eval_calc_uniform3, by norm_num⟩

/-! C4: relation between output timestamps and the right-aligned series. -/

/-- C4 (amended): every non-appended output sample sits exactly
`w/2 - 1` seconds earlier than the sample of the naive right-aligned
rolling rate series carrying the same value: each sample `p` of the trimmed
re-centered series appears in the output at `p.1 + 1` (the final one second
shift), and corresponds to a right-aligned sample at `p.1 + w/2`. -/
theorem recentering_offset :
    ∀ (ts : List ℚ) (w : ℕ) (up : Bool) (u? : Option ℚ)
      (e1 out : List (ℚ × ℚ)),
      eventCountStage ts up u? = .ok e1 →
      calc_rolling_event_rate ts w up u? = .ok out →
      ∀ p ∈ trimmedRateSeries w e1,
        (p.1 + 1, p.2) ∈ out ∧
        ∃ q ∈ rateSeries w e1, q.1 = p.1 + (w : ℚ) / 2 ∧ q.2 = p.2 := by
  intro ts w up u? e1 out h hout p hp
  obtain ⟨L, _, hshape⟩ := calc_ok_shape h hout
  constructor
  · rw [hshape]
    exact List.mem_map.mpr ⟨p, List.mem_append_left _ hp, rfl⟩
  · have h1 : p ∈ recenter w (rateSeries w e1) := List.mem_of_mem_drop hp
    obtain ⟨x, hx, hxp⟩ := List.mem_map.mp h1
    refine ⟨x, hx, ?_, ?_⟩
    · rw [← hxp]
      ring
    · rw [← hxp]

theorem eval_binned_pair :
    resampleSum (groupCounts [0, 3600]) = [(0, 1), (3600, 1)] := by
  have hG : groupCounts [0, 3600] = [(0, 1), (3600, 1)] := by
    norm_num [groupCounts, sortAsc, insertAsc, List.dedup_cons_of_mem,
      List.dedup_cons_of_not_mem, List.count_cons]
  rw [hG, resampleSum_cons]
  have hmin : minTime [((0 : ℚ), (1 : ℚ)), (3600, 1)] = 0 := by
    norm_num [minTime, min_def]
  have hmax : maxTime [((0 : ℚ), (1 : ℚ)), (3600, 1)] = 3600 := by
    norm_num [maxTime, max_def]
  rw [hmin, hmax]
  have hD : dateRange (3600 * ((binIdx (0 : ℚ)) : ℚ))
      (3600 * ((binIdx (3600 : ℚ)) : ℚ)) 3600 = gridFrom 0 3600 1 := by
    have h0 : (3600 * ((binIdx (0 : ℚ)) : ℚ)) = 0 := by norm_num [binIdx]
    have h1 : (3600 * ((binIdx (3600 : ℚ)) : ℚ)) = 3600 := by
      norm_num [binIdx]
    rw [h0, h1]
    exact dateRange_eq_grid (by norm_num) (by norm_num) (by norm_num)
  rw [hD]
  norm_num [gridFrom, binSum, binIdx, List.filter_cons]

theorem eval_eventCountStage_pair :
    eventCountStage [0, 3600] false none = .ok [(0, 1), (3600, 1)] := by
  rw [eventCountStage_of_ne_nil false none (by simp), eval_binned_pair,
    upsampleStage_false]

theorem eval_trimmed_pair :
    trimmedRateSeries 3600 [((0 : ℚ), (1 : ℚ)), (3600, 1)] = [(1800, 24)] := by
  norm_num [trimmedRateSeries, trimStage, recenter, rateSeries,
    rollingSumSeries, List.filter_cons]

theorem eval_calc_pair :
    calc_rolling_event_rate [0, 3600] 3600 false none =
      .ok [(1801, 24), (1801, 24)] := by
  have hL : (trimmedRateSeries 3600 [((0 : ℚ), (1 : ℚ)), (3600, 1)]).getLast? =
      some ((1800 : ℚ), (24 : ℚ)) := by rw [eval_trimmed_pair]; rfl
  have hD : dateRange (1800 : ℚ) (lastTime [((0 : ℚ), (1 : ℚ)), (3600, 1)]) 3600 =
      gridFrom 1800 3600 0 := by
    refine dateRange_eq_grid (by norm_num) ?_ ?_ <;> norm_num [lastTime]
  rw [calc_of_ok eval_eventCountStage_pair hL, eval_trimmed_pair]
  dsimp only
  rw [hD]
  norm_num [gridFrom, shiftOneSec]

theorem eval_rateSeries_pair :
    rateSeries 3600 [((0 : ℚ), (1 : ℚ)), (3600, 1)] = [(0, 24), (3600, 24)] := by
  norm_num [rateSeries, rollingSumSeries, List.filter_cons]

/-- Witness for `recentering_offset` at a concrete input, instantiated at
the single trimmed sample `(1800, 24)`. -/
theorem recentering_offset_witness :
    (((1800 : ℚ), (24 : ℚ)).1 + 1, ((1800 : ℚ), (24 : ℚ)).2) ∈
      [((1801 : ℚ), (24 : ℚ)), (1801, 24)] ∧
    ∃ q ∈ rateSeries 3600 [((0 : ℚ), (1 : ℚ)), (3600, 1)],
      q.1 = ((1800 : ℚ), (24 : ℚ)).1 + ((3600 : ℕ) : ℚ) / 2 ∧
      q.2 = ((1800 : ℚ), (24 : ℚ)).2 :=
  recentering_offset [0, 3600] 3600 false none [(0, 1), (3600, 1)]
    [(1801, 24), (1801, 24)] eval_eventCountStage_pair eval_calc_pair
    (1800, 24) (by rw [eval_trimmed_pair]; exact List.mem_cons_self _ _)

/-- C4 counterexample: for events at 0 and 3600 with w = 3600, the output
is `[(1801, 24), (1801, 24)]`, yet no sample of the right-aligned rolling
rate series (which has timestamps 0 and 3600) lies exactly `w/2 = 1800`
seconds later than any output sample: the final one second index shift
makes the actual offset `w/2 - 1`. -/
theorem recentering_claim_false :
    calc_rolling_event_rate [0, 3600] 3600 false none =
      .ok [(1801, 24), (1801, 24)] ∧
    eventCountStage [0, 3600] false none = .ok [(0, 1), (3600, 1)] ∧
    ∀ p ∈ [((1801 : ℚ), (24 : ℚ)), (1801, 24)],
      ¬ ∃ q ∈ rateSeries 3600 [((0 : ℚ), (1 : ℚ)), (3600, 1)],
        q.1 = p.1 + (3600 : ℚ) / 2 := by
  refine ⟨eval_calc_pair, eval_eventCountStage_pair, ?_⟩
  rw [eval_rateSeries_pair]
  norm_num

/-! Auxiliary order and last-element lemmas used for the forward-fill
analysis (C3). -/

theorem foldl_min_le_init (a : ℚ) (l : List ℚ) : l.foldl min a ≤ a := by
  induction l generalizing a with
  | nil => exact le_refl a
  | cons b t ih => exact le_trans (ih (min a b)) (min_le_left a b)

theorem foldl_min_mem (a : ℚ) (l : List ℚ) :
    l.foldl min a = a ∨ l.foldl min a ∈ l := by
  induction l generalizing a with
  | nil => exact Or.inl rfl
  | cons b t ih =>
    rcases ih (min a b) with h | h
    · rcases min_choice a b with hm | hm
      · exact Or.inl (by rw [List.foldl_cons, h, hm])
      · exact Or.inr (by rw [List.foldl_cons, h, hm]; exact List.mem_cons_self b t)
    · exact Or.inr (List.mem_cons_of_mem b h)

theorem le_foldl_max (a : ℚ) (l : List ℚ) : a ≤ l.foldl max a := by
  induction l generalizing a with
  | nil => exact le_refl a
  | cons b t ih => exact le_trans (le_max_left a b) (ih (max a b))

theorem mem_le_foldl_max {t : ℚ} {l : List ℚ} (a : ℚ) (h : t ∈ l) :
    t ≤ l.foldl max a := by
  induction l generalizing a with
  | nil => cases h
  | cons b tl ih =>
    rcases List.mem_cons.mp h with rfl | h2
    · exact le_trans (le_max_right a t) (le_foldl_max (max a t) tl)
    · exact ih (max a b) h2

theorem le_maxTs {t : ℚ} {ts : List ℚ} (h : t ∈ ts) : t ≤ maxTs ts := by
  cases ts with
  | nil => cases h
  | cons a rest =>
    rcases List.mem_cons.mp h with rfl | h2
    · exact le_foldl_max t rest
    · exact mem_le_foldl_max a h2

theorem mem_insertAsc {x a : ℚ} {l : List ℚ} :
    x ∈ insertAsc a l ↔ x = a ∨ x ∈ l := by
  induction l with
  | nil => simp [insertAsc]
  | cons b t ih =>
    by_cases hab : a ≤ b
    · simp [insertAsc, hab]
    · simp only [insertAsc, if_neg hab, List.mem_cons, ih]
      tauto

theorem mem_sortAsc {x : ℚ} {l : List ℚ} : x ∈ sortAsc l ↔ x ∈ l := by
  induction l with
  | nil => simp [sortAsc]
  | cons b t ih =>
    show x ∈ insertAsc b (sortAsc t) ↔ _
    rw [mem_insertAsc, ih]
    simp

theorem minTime_mem {e : List (ℚ × ℚ)} (h : e ≠ []) :
    minTime e ∈ e.map Prod.fst := by
  cases e with
  | nil => exact absurd rfl h
  | cons p rest =>
    rcases foldl_min_mem p.1 (rest.map Prod.fst) with h2 | h2
    · rw [minTime, h2]
      exact List.mem_map.mpr ⟨p, List.mem_cons_self p rest, rfl⟩
    · rw [minTime]
      exact List.mem_cons_of_mem _ h2

theorem minTime_le_maxTs {ts : List ℚ} (h : ts ≠ []) :
    minTime (groupCounts ts) ≤ maxTs ts := by
  have hne : groupCounts ts ≠ [] := by
    obtain ⟨x, hx⟩ := List.exists_mem_of_ne_nil ts h
    have hx2 : x ∈ (sortAsc ts).dedup := List.mem_dedup.mpr (mem_sortAsc.mpr hx)
    exact List.ne_nil_of_mem
      (List.mem_map.mpr ⟨x, hx2, rfl⟩)
  have hmem := minTime_mem hne
  rw [groupCounts] at hmem
  simp only [List.map_map, Function.comp] at hmem
  obtain ⟨t, ht, hteq⟩ := List.mem_map.mp hmem
  have : t ∈ ts := mem_sortAsc.mp (List.mem_dedup.mp ht)
  rw [groupCounts, ← hteq]
  exact le_maxTs this

theorem gridFrom_ne_nil (s step : ℚ) (n : ℕ) : gridFrom s step n ≠ [] := by
  cases n <;> simp [gridFrom]

theorem gridFrom_head (s step : ℚ) (n : ℕ) :
    ∃ tl, gridFrom s step n = s :: tl := by
  cases n with
  | zero => exact ⟨[], rfl⟩
  | succ m => exact ⟨gridFrom (s + step) step m, rfl⟩

theorem gridFrom_getLast? (step : ℚ) :
    ∀ (n : ℕ) (s : ℚ), (gridFrom s step n).getLast? = some (s + step * n) := by
  intro n
  induction n with
  | zero => intro s; simp [gridFrom]
  | succ m ih =>
    intro s
    obtain ⟨tl, htl⟩ := gridFrom_head (s + step) step m
    show (s :: gridFrom (s + step) step m).getLast? = _
    rw [htl, List.getLast?_cons_cons, ← htl, ih (s + step)]
    congr 1
    push_cast
    ring

theorem dateRange_getLast? {s e step : ℚ} (h1 : 0 < step) (h2 : s ≤ e) :
    (dateRange s e step).getLast? =
      some (s + step * ((⌊(e - s) / step⌋ : ℤ) : ℚ)) := by
  rw [dateRange, if_pos ⟨h1, h2⟩, gridFrom_getLast?]
  have hnn : (0 : ℤ) ≤ ⌊(e - s) / step⌋ :=
    Int.floor_nonneg.mpr (div_nonneg (by linarith) h1.le)
  have hcast : ((⌊(e - s) / step⌋.toNat : ℕ) : ℚ) =
      ((⌊(e - s) / step⌋ : ℤ) : ℚ) := by
    exact_mod_cast Int.toNat_of_nonneg hnn
  rw [hcast]

theorem getLast?_map_fun {α β : Type} (f : α → β) :
    ∀ l : List α, (l.map f).getLast? = (l.getLast?).map f
  | [] => rfl
  | [_] => rfl
  | a :: b :: t => by
    rw [List.map_cons, List.map_cons, List.getLast?_cons_cons, ← List.map_cons,
      getLast?_map_fun f (b :: t), List.getLast?_cons_cons]

theorem getLast?_of_drop {α : Type} :
    ∀ (l : List α) (n : ℕ) {x : α},
      (l.drop n).getLast? = some x → l.getLast? = some x
  | [], n, x, h => by simp at h
  | _ :: _, 0, _, h => h
  | a :: t, n + 1, x, h => by
    have h2 := getLast?_of_drop t n h
    cases t with
    | nil => simp at h2
    | cons b t2 => rw [List.getLast?_cons_cons]; exact h2

theorem groupCounts_ne_nil {ts : List ℚ} (h : ts ≠ []) :
    groupCounts ts ≠ [] := by
  obtain ⟨x, hx⟩ := List.exists_mem_of_ne_nil ts h
  have hx2 : x ∈ (sortAsc ts).dedup := List.mem_dedup.mpr (mem_sortAsc.mpr hx)
  exact List.ne_nil_of_mem (List.mem_map.mpr ⟨x, hx2, rfl⟩)

theorem minTime_le_maxTime {p : ℚ × ℚ} {rest : List (ℚ × ℚ)} :
    minTime (p :: rest) ≤ maxTime (p :: rest) :=
  le_trans (foldl_min_le_init p.1 (rest.map Prod.fst))
    (le_foldl_max p.1 (rest.map Prod.fst))

theorem floor_bin_mul_le (x : ℚ) : 3600 * ((⌊x / 3600⌋ : ℤ) : ℚ) ≤ x := by
  have h := Int.floor_le (x / 3600)
  have h2 : (3600 : ℚ) * ((⌊x / 3600⌋ : ℤ) : ℚ) ≤ 3600 * (x / 3600) := by
    exact mul_le_mul_of_nonneg_left h (by norm_num)
  calc 3600 * ((⌊x / 3600⌋ : ℤ) : ℚ) ≤ 3600 * (x / 3600) := h2
    _ = x := by ring

/-- Structure of the gap-filled event count series when a strictly newer
reference timestamp is supplied: its newest sample sits on the hour-grid
point at or just before the reference. -/
theorem lastTime_eventCount_upsampled {ts : List ℚ} {u : ℚ}
    {e1 : List (ℚ × ℚ)} (hne : ts ≠ []) (hu : maxTs ts < u)
    (hE : eventCountStage ts true (some u) = .ok e1) :
    lastTime e1 = 3600 * ((⌊u / 3600⌋ : ℤ) : ℚ) := by
  rw [eventCountStage_of_ne_nil true (some u) hne, upsampleStage] at hE
  simp only [if_true] at hE
  rw [if_neg (ne_of_lt hu), if_neg (lt_asymm hu)] at hE
  have he1 : e1 = asfreq (resampleSum (groupCounts ts) ++ [(u, 0)]) :=
    (Except.ok.injEq _ _).mp hE.symm
  obtain ⟨q, qs, hqs⟩ := List.exists_cons_of_ne_nil (groupCounts_ne_nil hne)
  have hminmax : minTime (q :: qs) ≤ maxTime (q :: qs) := minTime_le_maxTime
  have hAB : 3600 * ((binIdx (minTime (q :: qs))) : ℚ) ≤
      3600 * ((binIdx (maxTime (q :: qs))) : ℚ) := by
    have : binIdx (minTime (q :: qs)) ≤ binIdx (maxTime (q :: qs)) :=
      Int.floor_le_floor (by linarith)
    have h2 : ((binIdx (minTime (q :: qs))) : ℚ) ≤
        ((binIdx (maxTime (q :: qs))) : ℚ) := by exact_mod_cast this
    linarith
  set A : ℚ := 3600 * ((binIdx (minTime (q :: qs))) : ℚ) with hA
  have hAle : A ≤ minTime (q :: qs) := floor_bin_mul_le _
  have hminmem : minTime (groupCounts ts) ≤ maxTs ts := by
    have hmem := minTime_mem (groupCounts_ne_nil hne)
    rw [groupCounts] at hmem
    simp only [List.map_map, Function.comp] at hmem
    obtain ⟨t, ht, hteq⟩ := List.mem_map.mp hmem
    have htts : t ∈ ts := mem_sortAsc.mp (List.mem_dedup.mp ht)
    rw [groupCounts, ← hteq]
    exact le_maxTs htts
  have hAu : A ≤ u := by
    rw [hqs] at hminmem
    calc A ≤ minTime (q :: qs) := hAle
      _ ≤ maxTs ts := hminmem
      _ ≤ u := le_of_lt hu
  -- unfold the binned series into a grid starting at A
  rw [hqs, resampleSum_cons] at he1
  rw [dateRange, if_pos ⟨by norm_num, hAB⟩] at he1
  obtain ⟨tl, htl⟩ := gridFrom_head A 3600 _
  rw [htl, List.map_cons, List.cons_append] at he1
  rw [asfreq] at he1
  have hlast : lastTime ((A, binSum (q :: qs) (binIdx A)) ::
      (List.map (fun t => (t, binSum (q :: qs) (binIdx t))) tl ++ [(u, 0)])) = u := by
    rw [lastTime, ← List.cons_append, List.getLast?_concat]
  rw [hlast] at he1
  -- now e1 is the map of a date range from A to u
  have hdr := @dateRange_getLast? A u 3600 (by norm_num) hAu
  rw [he1, lastTime, getLast?_map_fun, hdr]
  show A + 3600 * ((⌊(u - A) / 3600⌋ : ℤ) : ℚ) = _
  have hfloor : ⌊(u - A) / 3600⌋ =
      ⌊u / 3600⌋ - binIdx (minTime (q :: qs)) := by
    have harg : (u - A) / 3600 =
        u / 3600 - ((binIdx (minTime (q :: qs))) : ℚ) := by
      rw [hA]; ring
    rw [harg, Int.floor_sub_int]
  rw [hfloor, hA]
  push_cast
  ring

/-- Time coordinate of the last sample of the trimmed re-centered series:
half a window width before the newest gap-filled sample. -/
theorem trimmed_getLast_time {w : ℕ} {e1 : List (ℚ × ℚ)} {L : ℚ × ℚ}
    (hL : (trimmedRateSeries w e1).getLast? = some L) :
    L.1 = lastTime e1 - (w : ℚ) / 2 := by
  have h1 := getLast?_of_drop _ _ hL
  rw [recenter, getLast?_map_fun, rateSeries, getLast?_map_fun,
    rollingSumSeries, getLast?_map_fun] at h1
  cases he : e1.getLast? with
  | none => rw [he] at h1; simp at h1
  | some P =>
    rw [he] at h1
    simp only [Option.map_some'] at h1
    have hL1 : L.1 = P.1 - (w : ℚ) / 2 := by
      rw [← Option.some.injEq] at h1
      cases h1
      rfl
    rw [hL1, lastTime, he]

/-- C3 (amended): the forward-fill extension is performed unconditionally
(see the counterexample for the no-upsampling case); when zero-upsampling is
requested with a reference strictly after the last sample (and half the
window width is a whole number of hour bins), the output decomposes into the
shifted trimmed series followed by a non-empty trailing run of samples all
carrying the last pre-extension value, at hour-bin resolution, whose final
sample sits one second after the last hour-grid point at or before the
reference timestamp (not at the reference timestamp itself). -/
theorem forward_fill_extension :
    ∀ (ts : List ℚ) (w : ℕ) (u : ℚ) (e1 out : List (ℚ × ℚ)),
      ts ≠ [] → maxTs ts < u → 7200 ∣ w →
      eventCountStage ts true (some u) = .ok e1 →
      calc_rolling_event_rate ts w true (some u) = .ok out →
      ∃ L, (trimmedRateSeries w e1).getLast? = some L ∧
        out = shiftOneSec (trimmedRateSeries w e1) ++
          (dateRange L.1 (3600 * ((⌊u / 3600⌋ : ℤ) : ℚ)) 3600).map
            (fun t => (t + 1, L.2)) ∧
        dateRange L.1 (3600 * ((⌊u / 3600⌋ : ℤ) : ℚ)) 3600 ≠ [] ∧
        out.getLast? = some (3600 * ((⌊u / 3600⌋ : ℤ) : ℚ) + 1, L.2) ∧
        3600 * ((⌊u / 3600⌋ : ℤ) : ℚ) ≤ u := by
  intro ts w u e1 out hne hu hdvd hE hout
  obtain ⟨L, hL, hshape⟩ := calc_ok_shape hE hout
  have hD := lastTime_eventCount_upsampled hne hu hE
  have hL1 := trimmed_getLast_time hL
  obtain ⟨c, hc⟩ := hdvd
  have hw2 : (w : ℚ) / 2 = 3600 * (c : ℚ) := by rw [hc]; push_cast; ring
  have hL1D : L.1 = 3600 * ((⌊u / 3600⌋ : ℤ) : ℚ) - 3600 * (c : ℚ) := by
    rw [hL1, hD, hw2]
  have hcnn : (0 : ℚ) ≤ 3600 * (c : ℚ) := by positivity
  have hL1le : L.1 ≤ 3600 * ((⌊u / 3600⌋ : ℤ) : ℚ) := by
    rw [hL1D]; linarith
  have hfl : ⌊(3600 * ((⌊u / 3600⌋ : ℤ) : ℚ) - L.1) / 3600⌋ = (c : ℤ) := by
    have harg : (3600 * ((⌊u / 3600⌋ : ℤ) : ℚ) - L.1) / 3600 = (c : ℚ) := by
      rw [hL1D]; ring
    rw [harg, Int.floor_natCast]
  have hdr : (dateRange L.1 (3600 * ((⌊u / 3600⌋ : ℤ) : ℚ)) 3600).getLast? =
      some (3600 * ((⌊u / 3600⌋ : ℤ) : ℚ)) := by
    rw [dateRange_getLast? (by norm_num) hL1le, hfl]
    congr 1
    rw [hL1D]
    push_cast
    ring
  refine ⟨L, hL, ?_, ?_, ?_, floor_bin_mul_le u⟩
  · rw [hshape, hD, shiftOneSec, List.map_append, List.map_map]
    rfl
  · rw [dateRange, if_pos ⟨by norm_num, hL1le⟩]
    exact gridFrom_ne_nil _ _ _
  · rw [hshape, hD, shiftOneSec, List.map_append]
    have hrne : ((dateRange L.1 (3600 * ((⌊u / 3600⌋ : ℤ) : ℚ)) 3600).map
        (fun t => (t, L.2))).map (fun p => (p.1 + 1, p.2)) ≠ [] := by
      have h1 : dateRange L.1 (3600 * ((⌊u / 3600⌋ : ℤ) : ℚ)) 3600 ≠ [] := by
        rw [dateRange, if_pos ⟨by norm_num, hL1le⟩]
        exact gridFrom_ne_nil _ _ _
      simpa using h1
    rw [List.getLast?_append_of_ne_nil _ hrne, getLast?_map_fun,
      getLast?_map_fun, hdr]
    rfl

theorem asfreq_cons (p : ℚ × ℚ) (rest : List (ℚ × ℚ)) :
    asfreq (p :: rest) =
      (dateRange p.1 (lastTime (p :: rest)) 3600).map
        (fun t => (t, seriesAt (p :: rest) t)) := rfl

theorem eval_eventCountStage_pair_up :
    eventCountStage [0, 3600] true (some 9000) =
      .ok [(0, 1), (3600, 1), (7200, 0)] := by
  have hmax : maxTs [0, 3600] = 3600 := by norm_num [maxTs, max_def]
  rw [eventCountStage_of_ne_nil true (some 9000) (by simp), eval_binned_pair,
    hmax, upsampleStage]
  simp only [if_true]
  rw [if_neg (by norm_num), if_neg (by norm_num)]
  congr 1
  show asfreq [((0 : ℚ), (1 : ℚ)), (3600, 1), (9000, 0)] = _
  rw [asfreq_cons]
  have hlast : lastTime [((0 : ℚ), (1 : ℚ)), (3600, 1), (9000, 0)] = 9000 := rfl
  rw [hlast]
  show (dateRange (0 : ℚ) 9000 3600).map _ = _
  have hD : dateRange (0 : ℚ) 9000 3600 = gridFrom 0 3600 2 :=
    dateRange_eq_grid (by norm_num) (by norm_num) (by norm_num)
  rw [hD]
  norm_num [gridFrom, seriesAt, List.find?]

theorem eval_trimmed_pair_up :
    trimmedRateSeries 7200 [((0 : ℚ), (1 : ℚ)), (3600, 1), (7200, 0)] =
      [(3600, 12)] := by
  norm_num [trimmedRateSeries, trimStage, recenter, rateSeries,
    rollingSumSeries, List.filter_cons]

theorem eval_calc_pair_up :
    calc_rolling_event_rate [0, 3600] 7200 true (some 9000) =
      .ok [(3601, 12), (3601, 12), (7201, 12)] := by
  have hL : (trimmedRateSeries 7200
      [((0 : ℚ), (1 : ℚ)), (3600, 1), (7200, 0)]).getLast? =
      some ((3600 : ℚ), (12 : ℚ)) := by rw [eval_trimmed_pair_up]; rfl
  have hD : dateRange (3600 : ℚ)
      (lastTime [((0 : ℚ), (1 : ℚ)), (3600, 1), (7200, 0)]) 3600 =
      gridFrom 3600 3600 1 := by
    refine dateRange_eq_grid (by norm_num) ?_ ?_ <;> norm_num [lastTime]
  rw [calc_of_ok eval_eventCountStage_pair_up hL, eval_trimmed_pair_up]
  dsimp only
  rw [hD]
  norm_num [gridFrom, shiftOneSec]

/-- Witness for `forward_fill_extension` at a concrete input
(events at 0 and 3600, window 7200 s, reference 9000 s). -/
theorem forward_fill_extension_witness :
    ∃ L, (trimmedRateSeries 7200
        [((0 : ℚ), (1 : ℚ)), (3600, 1), (7200, 0)]).getLast? = some L ∧
      [((3601 : ℚ), (12 : ℚ)), (3601, 12), (7201, 12)] =
        shiftOneSec (trimmedRateSeries 7200
          [((0 : ℚ), (1 : ℚ)), (3600, 1), (7200, 0)]) ++
        (dateRange L.1 (3600 * ((⌊(9000 : ℚ) / 3600⌋ : ℤ) : ℚ)) 3600).map
          (fun t => (t + 1, L.2)) ∧
      dateRange L.1 (3600 * ((⌊(9000 : ℚ) / 3600⌋ : ℤ) : ℚ)) 3600 ≠ [] ∧
      ([((3601 : ℚ), (12 : ℚ)), (3601, 12), (7201, 12)] :
        List (ℚ × ℚ)).getLast? =
        some (3600 * ((⌊(9000 : ℚ) / 3600⌋ : ℤ) : ℚ) + 1, L.2) ∧
      3600 * ((⌊(9000 : ℚ) / 3600⌋ : ℤ) : ℚ) ≤ 9000 :=
  forward_fill_extension [0, 3600] 7200 9000 [(0, 1), (3600, 1), (7200, 0)]
    [(3601, 12), (3601, 12), (7201, 12)] (by simp)
    (by norm_num [maxTs, max_def]) ⟨1, by norm_num⟩
    eval_eventCountStage_pair_up eval_calc_pair_up

/-- C3 counterexample: forward-fill is not conditional on zero-upsampling.
With zero-upsampling disabled (events at 0 and 3600, window 3600 s) the
trimmed series alone is `[(1801, 24)]`, yet the returned output is
`[(1801, 24), (1801, 24)]`: the forward-fill appended a sample anyway. -/
theorem forward_fill_only_if_claim_false :
    calc_rolling_event_rate [0, 3600] 3600 false none =
      .ok [(1801, 24), (1801, 24)] ∧
    eventCountStage [0, 3600] false none = .ok [(0, 1), (3600, 1)] ∧
    shiftOneSec (trimmedRateSeries 3600 [((0 : ℚ), (1 : ℚ)), (3600, 1)]) =
      [(1801, 24)] ∧
    ([((1801 : ℚ), (24 : ℚ)), (1801, 24)] : List (ℚ × ℚ)) ≠ [(1801, 24)] :=
  ⟨eval_calc_pair, eval_eventCountStage_pair,
    by rw [eval_trimmed_pair]; norm_num [shiftOneSec], by simp⟩

/-! ===== Build/job records and their processing (src/cia/buildkite.py) ===== -/

/-- A job record as consumed by rewrite_build_objects and
identify_top_n_step_keys. `step_key` distinguishes a job dict without a
"step_key" entry (`none`), a null value (`some none`) and a string key
(`some (some k)`). Timestamps are modelled as already-parsed rational epoch
seconds; a null field stays `none` (the AttributeError raised by
`.replace` on None is caught and skips the parse). -/
structure JobRec where
  typ : String
  step_key : Option (Option String)
  started_at : Option ℚ
  finished_at : Option ℚ
  duration_seconds : Option ℚ
  build_number : Option ℤ
deriving DecidableEq

/-- A build record: `number`, `state`, timestamps, derived duration and
nested jobs. -/
structure BuildRec where
  number : ℤ
  state : String
  started_at : Option ℚ
  finished_at : Option ℚ
  duration_seconds : Option ℚ
  jobs : List JobRec
deriving DecidableEq

/-- `(finished_at - started_at).total_seconds()` with the TypeError on a
null operand caught and turned into a null duration. -/
def computeDuration (started finished : Option ℚ) : Option ℚ :=
  match started, finished with
  | some s, some f => some (f - s)
  | _, _ => none

/-- Per-job half of rewrite_build_objects: waiter jobs are skipped
untouched; every other job receives the hard-coded `build_number = 1`
(the code's "shortcut for now") and the derived duration. -/
def rewriteJob (j : JobRec) : JobRec :=
  if j.typ = "waiter" then j
  else { j with build_number := some 1,
                duration_seconds := computeDuration j.started_at j.finished_at }

/-- Per-build half of rewrite_build_objects: derived duration plus the
per-job rewrite of every nested job. -/
def rewriteBuild (b : BuildRec) : BuildRec :=
  { b with duration_seconds := computeDuration b.started_at b.finished_at,
           jobs := b.jobs.map rewriteJob }

/-- rewrite_build_objects (src/cia/buildkite.py lines 312-371). -/
def rewrite_build_objects (builds : List BuildRec) : List BuildRec :=
  builds.map rewriteBuild

/-! C6: null timestamps yield null durations, without raising. -/

/-- C6: after normalization a build's `duration_seconds` is non-null exactly
when both `started_at` and `finished_at` are non-null; in particular a
record with a null `started_at` comes out with a null duration (the
normalizer is total: the TypeError is caught). -/
theorem normalizer_null_duration :
    ∀ b : BuildRec,
      ((rewriteBuild b).duration_seconds.isSome ↔
        (b.started_at.isSome ∧ b.finished_at.isSome)) ∧
      (rewriteBuild { b with started_at := none }).duration_seconds = none := by
  intro b
  constructor
  · cases hs : b.started_at <;> cases hf : b.finished_at <;>
      simp [rewriteBuild, computeDuration, hs, hf]
  · simp [rewriteBuild, computeDuration]

/-! C7: the back-reference written into jobs is the constant 1, not the
owning build's number. -/

/-- Example non-waiter job used in concrete checks. -/
def exJob : JobRec := ⟨"script", some (some "build"), none, none, none, none⟩

/-- Example build with number 2 owning `exJob`. -/
def exBuild : BuildRec := ⟨2, "passed", none, none, none, [exJob]⟩

/-- C7 (amended): normalization writes the constant `build_number = 1` into
every non-waiter job, regardless of the owning build's `number` (the code
leaves recovering the real number from `build_url` "for later"). -/
theorem job_build_number_constant :
    ∀ (builds : List BuildRec) (b : BuildRec) (j : JobRec),
      b ∈ rewrite_build_objects builds → j ∈ b.jobs → j.typ ≠ "waiter" →
      j.build_number = some 1 := by
  intro builds b j hb hj hw
  obtain ⟨a, _, rfl⟩ := List.mem_map.mp hb
  have hj2 : j ∈ a.jobs.map rewriteJob := hj
  obtain ⟨j0, _, rfl⟩ := List.mem_map.mp hj2
  rw [rewriteJob] at hw ⊢
  by_cases h : j0.typ = "waiter"
  · rw [if_pos h] at hw
    exact absurd h hw
  · rw [if_neg h]

/-- Witness for `job_build_number_constant` at a concrete input. -/
theorem job_build_number_constant_witness :
    (rewriteJob exJob).build_number = some 1 :=
  job_build_number_constant [exBuild] (rewriteBuild exBuild) (rewriteJob exJob)
    (List.mem_map.mpr ⟨exBuild, List.mem_cons_self _ _, rfl⟩)
    (List.mem_map.mpr ⟨exJob, List.mem_cons_self _ _, rfl⟩)
    (by simp [rewriteJob, exJob])

/-- C7 counterexample: the build `exBuild` has number 2, yet after
normalization its only (non-waiter) job carries `build_number = 1 ≠ 2`. -/
theorem job_build_number_claim_false :
    ((rewrite_build_objects [exBuild]).flatMap (fun b => b.jobs)).map
      (fun j => j.build_number) = [some 1] ∧
    exBuild.number = 2 ∧ some (1 : ℤ) ≠ some (2 : ℤ) := by
  refine ⟨?_, rfl, by decide⟩
  simp [rewrite_build_objects, rewriteBuild, rewriteJob, exBuild, exJob]

/-! C8: identify_top_n_step_keys (src/cia/buildkite.py lines 374-406). -/

/-- The contribution of one job to the histogram loop: a (key, job) pair
when the job carries a non-null `step_key`, nothing when the entry is
absent or null. -/
def stepKeyPair (j : JobRec) : Option (String × JobRec) :=
  match j.step_key with
  | some (some k) => some (k, j)
  | _ => none

/-- The (key, job) pairs produced by iterating all jobs of all builds in
order. -/
def keyedJobs (builds : List BuildRec) : List (String × JobRec) :=
  (builds.flatMap (fun b => b.jobs)).filterMap stepKeyPair

/-- The `step_keys` list accumulated by the loop. -/
def step_keys (builds : List BuildRec) : List String :=
  (keyedJobs builds).map Prod.fst

/-- `Counter(step_keys)[k]`. -/
def step_key_count (builds : List BuildRec) (k : String) : ℕ :=
  (step_keys builds).count k

/-- One `jobs_by_key[key].append(job)` step on a `defaultdict(list)`
modelled as an association list in insertion order. -/
def dictAppend (m : List (String × List JobRec)) (k : String) (j : JobRec) :
    List (String × List JobRec) :=
  if (m.find? (fun p => p.1 = k)).isSome then
    m.map (fun p => if p.1 = k then (p.1, p.2 ++ [j]) else p)
  else m ++ [(k, [j])]

/-- The `jobs_by_key` dictionary built by the loop. -/
def jobs_by_key (builds : List BuildRec) : List (String × List JobRec) :=
  (keyedJobs builds).foldl (fun m kj => dictAppend m kj.1 kj.2) []

/-- Dictionary access `jobs_by_key[k]` (empty for an absent key, as for a
defaultdict read). -/
def lookupKey (m : List (String × List JobRec)) (k : String) : List JobRec :=
  match m.find? (fun p => p.1 = k) with
  | some p => p.2
  | none => []

theorem lookupKey_dictAppend (m : List (String × List JobRec)) (k k' : String)
    (j : JobRec) :
    lookupKey (dictAppend m k j) k' =
      if k' = k then lookupKey m k' ++ [j] else lookupKey m k' := by
  rw [dictAppend]
  by_cases hmem : (m.find? (fun p => p.1 = k)).isSome
  · rw [if_pos hmem]
    rw [lookupKey, lookupKey, List.find?_map]
    have hpf : ((fun p : String × List JobRec => decide (p.1 = k')) ∘
        (fun p : String × List JobRec =>
          if p.1 = k then (p.1, p.2 ++ [j]) else p)) =
        (fun p : String × List JobRec => decide (p.1 = k')) := by
      funext p
      by_cases hp : p.1 = k <;> simp [hp]
    rw [hpf]
    by_cases hk : k' = k
    · rw [if_pos hk]
      subst hk
      cases hf : m.find? (fun p => p.1 = k') with
      | none => rw [hf] at hmem; simp at hmem
      | some q =>
        have hq : q.1 = k' := by simpa using List.find?_some hf
        simp only [Option.map_some']
        rw [if_pos hq]
    · rw [if_neg hk]
      cases hf : m.find? (fun p => p.1 = k') with
      | none => simp
      | some q =>
        have hq : q.1 = k' := by simpa using List.find?_some hf
        simp only [Option.map_some']
        rw [if_neg (by rw [hq]; exact hk)]
  · rw [if_neg hmem]
    rw [lookupKey, lookupKey, List.find?_append]
    by_cases hk : k' = k
    · rw [if_pos hk]
      subst hk
      cases hf : m.find? (fun p => p.1 = k') with
      | none =>
        simp only [Option.none_or]
        simp [List.find?]
      | some q => rw [hf] at hmem; simp at hmem
    · rw [if_neg hk]
      cases hf : m.find? (fun p => p.1 = k') with
      | none =>
        simp only [Option.none_or]
        simp [List.find?, Ne.symm hk]
      | some q => simp

theorem lookupKey_fold (l : List (String × JobRec)) :
    ∀ (m : List (String × List JobRec)) (k : String),
      lookupKey (l.foldl (fun m kj => dictAppend m kj.1 kj.2) m) k =
        lookupKey m k ++ (l.filter (fun kj => kj.1 = k)).map Prod.snd := by
  induction l with
  | nil => intro m k; simp
  | cons kj t ih =>
    intro m k
    rw [List.foldl_cons, ih, lookupKey_dictAppend, List.filter_cons]
    by_cases h : k = kj.1
    · rw [if_pos h, if_pos (by simp [h.symm])]
      simp
    · rw [if_neg h, if_neg (by simp; exact fun hc => h hc.symm)]

theorem keyedJobs_filter_map (jl : List JobRec) (k : String) :
    ((jl.filterMap stepKeyPair).filter (fun kj => kj.1 = k)).map Prod.snd =
      jl.filter (fun j => j.step_key = some (some k)) := by
  induction jl with
  | nil => rfl
  | cons j t ih =>
    rw [List.filterMap_cons, List.filter_cons]
    cases hsk : j.step_key with
    | none => simp [stepKeyPair, hsk, ih]
    | some o =>
      cases o with
      | none => simp [stepKeyPair, hsk, ih]
      | some k0 =>
        by_cases hk : k0 = k
        · subst hk
          simp [stepKeyPair, hsk, List.filter_cons, ih]
        · simp [stepKeyPair, hsk, List.filter_cons, hk, ih]

theorem count_map_fst_filter (l : List (String × JobRec)) (k : String) :
    (l.map Prod.fst).count k =
      ((l.filter (fun kj => kj.1 = k)).map Prod.snd).length := by
  induction l with
  | nil => rfl
  | cons kj t ih =>
    rw [List.map_cons, List.count_cons, List.filter_cons, ih]
    by_cases h : kj.1 = k
    · simp [h]
    · simp [h]

/-- Example jobs for the histogram check of the spec: two "build"-keyed
jobs, a null-keyed job and a waiter without the attribute. -/
def exJob1 : JobRec := ⟨"script", some (some "build"), some 1, none, none, none⟩

def exJob2 : JobRec := ⟨"script", some (some "build"), some 2, none, none, none⟩

def exJobNull : JobRec := ⟨"script", some none, none, none, none, none⟩

def exJobWaiter : JobRec := ⟨"waiter", none, none, none, none, none⟩

def exHistBuilds : List BuildRec :=
  [⟨1, "passed", none, none, none, [exJob1, exJob2, exJobNull, exJobWaiter]⟩]

/-- C8: the frequency count maps each key `k` to exactly the number of jobs
(across all builds) whose `step_key` equals `k`, and the grouping maps `k`
to exactly those job records in iteration order; jobs without the attribute
or with a null key contribute to neither. In particular, on the spec's
example the count for "build" is 2 and the group is the two matching
jobs. -/
theorem step_key_histogram :
    (∀ (builds : List BuildRec) (k : String),
      step_key_count builds k =
        ((builds.flatMap (fun b => b.jobs)).filter
          (fun j => j.step_key = some (some k))).length ∧
      lookupKey (jobs_by_key builds) k =
        (builds.flatMap (fun b => b.jobs)).filter
          (fun j => j.step_key = some (some k))) ∧
    (step_key_count exHistBuilds "build" = 2 ∧
      lookupKey (jobs_by_key exHistBuilds) "build" = [exJob1, exJob2]) := by
  have hmain : ∀ (builds : List BuildRec) (k : String),
      step_key_count builds k =
        ((builds.flatMap (fun b => b.jobs)).filter
          (fun j => j.step_key = some (some k))).length ∧
      lookupKey (jobs_by_key builds) k =
        (builds.flatMap (fun b => b.jobs)).filter
          (fun j => j.step_key = some (some k)) := by
    intro builds k
    constructor
    · rw [step_key_count, step_keys, count_map_fst_filter, keyedJobs,
        keyedJobs_filter_map]
    · rw [jobs_by_key, lookupKey_fold, keyedJobs, keyedJobs_filter_map]
      rfl
  refine ⟨hmain, ?_, ?_⟩
  · rw [(hmain exHistBuilds "build").1]
    decide
  · rw [(hmain exHistBuilds "build").2]
    decide

/-! C9: analyze_build_stability (src/cia/buildkite.py line 202):
`rolling_window_stability = rolling_build_rate_passed / rolling_build_rate_all`,
a pandas Series division: index-aligned over the union of the two indexes,
missing/NaN entries modelled as `none`. -/

/-- Value of a rate series at an exact timestamp, if present. -/
def lookupVal (e : List (ℚ × ℚ)) (t : ℚ) : Option ℚ :=
  (e.find? (fun p => p.1 = t)).map Prod.snd

/-- The sorted union of the two series indexes that pandas aligns on. -/
def unionIndex (a b : List (ℚ × ℚ)) : List ℚ :=
  sortAsc ((a.map Prod.fst ++ b.map Prod.fst).dedup)

/-- Pandas Series division `num / den`: at each aligned timestamp the
quotient when both sides have a value, `none` (NaN) otherwise. -/
def seriesDivide (num den : List (ℚ × ℚ)) : List (ℚ × Option ℚ) :=
  (unionIndex num den).map (fun t =>
    (t, match lookupVal num t, lookupVal den t with
        | some p, some a => some (p / a)
        | _, _ => none))

/-- `rolling_window_stability = rolling_build_rate_passed /
rolling_build_rate_all`. -/
def rolling_window_stability (passed all : List (ℚ × ℚ)) :
    List (ℚ × Option ℚ) :=
  seriesDivide passed all

/-- Value of the composed ratio series at an exact timestamp. -/
def lookupRatio (e : List (ℚ × Option ℚ)) (t : ℚ) : Option (Option ℚ) :=
  (e.find? (fun p => p.1 = t)).map Prod.snd

theorem mem_unionIndex_left {num den : List (ℚ × ℚ)} {t : ℚ}
    (h : t ∈ num.map Prod.fst) : t ∈ unionIndex num den :=
  mem_sortAsc.mpr (List.mem_dedup.mpr (List.mem_append_left _ h))

/-- C9: the Stability Ratio Composer's output is the pointwise,
index-aligned quotient with no clamping: at every timestamp carrying a value
in both input series the composed value is exactly `passed / all`; on the
spec's example series the ratio values are `[1, 1/2, 0]`. -/
theorem stability_ratio_pointwise :
    (∀ (num den : List (ℚ × ℚ)) (t p a : ℚ),
      lookupVal num t = some p → lookupVal den t = some a →
      lookupRatio (rolling_window_stability num den) t = some (some (p / a))) ∧
    (rolling_window_stability [(0, 2), (1, 1), (2, 0)]
        [(0, 2), (1, 2), (2, 2)]).map Prod.snd =
      [some 1, some (1 / 2), some 0] := by
  constructor
  · intro num den t p a hp ha
    have htu : t ∈ unionIndex num den := by
      refine mem_unionIndex_left ?_
      rw [lookupVal] at hp
      cases hf : num.find? (fun q => q.1 = t) with
      | none => rw [hf] at hp; simp at hp
      | some q =>
        have hq : q.1 = t := by simpa using List.find?_some hf
        rw [← hq]
        exact List.mem_map.mpr ⟨q, List.mem_of_find?_eq_some hf, rfl⟩
    rw [rolling_window_stability, seriesDivide, lookupRatio, List.find?_map]
    have hpf : ((fun r : ℚ × Option ℚ => decide (r.1 = t)) ∘
        (fun s : ℚ => (s, match lookupVal num s, lookupVal den s with
          | some p0, some a0 => some (p0 / a0)
          | _, _ => none))) = (fun s : ℚ => decide (s = t)) := rfl
    rw [hpf]
    cases hf : (unionIndex num den).find? (fun s => s = t) with
    | none =>
      exfalso
      have : ((unionIndex num den).find? (fun s => s = t)).isSome :=
        List.find?_isSome.mpr ⟨t, htu, by simp⟩
      rw [hf] at this
      simp at this
    | some s =>
      have hs : s = t := by simpa using List.find?_some hf
      subst hs
      simp only [Option.map_some']
      rw [hp, ha]
  · norm_num [rolling_window_stability, seriesDivide, unionIndex, sortAsc,
      insertAsc, lookupVal, List.find?, List.dedup_cons_of_mem,
      List.dedup_cons_of_not_mem]

/-- Witness for `stability_ratio_pointwise` at a concrete timestamp. -/
theorem stability_ratio_pointwise_witness :
    lookupRatio (rolling_window_stability [((1 : ℚ), (1 : ℚ))]
      [((1 : ℚ), (2 : ℚ))]) 1 = some (some ((1 : ℚ) / 2)) :=
  stability_ratio_pointwise.1 [(1, 1)] [(1, 2)] 1 1 2
    (by norm_num [lookupVal, List.find?]) (by norm_num [lookupVal, List.find?])

/-! C10: filter_builds_based_on_duration (src/cia/filter.py lines 50-76). -/

/-- The comparison `b["duration_seconds"] >= threshold`: a null duration
raises a TypeError, modelled as `none`. -/
def durGE (t : ℤ) (b : BuildRec) : Option Bool :=
  b.duration_seconds.map (fun d => decide ((t : ℚ) ≤ d))

/-- The comparison `b["duration_seconds"] <= threshold`. -/
def durLE (t : ℤ) (b : BuildRec) : Option Bool :=
  b.duration_seconds.map (fun d => decide (d ≤ (t : ℚ)))

/-- A Python list comprehension filter whose predicate may raise
(None = propagated exception). -/
def filterOrRaise (p : BuildRec → Option Bool) :
    List BuildRec → Option (List BuildRec)
  | [] => some []
  | b :: rest =>
    match p b with
    | none => none
    | some keep =>
      (filterOrRaise p rest).map (fun r => if keep then b :: r else r)

/-- filter_builds_based_on_duration: each of the two thresholds is applied
only when its CLI option is truthy (absent → None → falsy, and the integer
0 is falsy too); the second filter runs on the output of the first. -/
def filter_builds_based_on_duration (shorter? longer? : Option ℤ)
    (builds : List BuildRec) : Option (List BuildRec) :=
  let kept1? :=
    match shorter? with
    | some s => if s ≠ 0 then filterOrRaise (durGE s) builds else some builds
    | none => some builds
  match kept1? with
  | none => none
  | some kept1 =>
    match longer? with
    | some l => if l ≠ 0 then filterOrRaise (durLE l) kept1 else some kept1
    | none => some kept1

/-- C10: a threshold equal to 0 is treated exactly like an unset threshold
(Python truthiness), and with both thresholds 0 the build list is returned
unchanged, not filtered against a 0-second bound. -/
theorem duration_filter_zero_threshold :
    ∀ (builds : List BuildRec) (o : Option ℤ),
      filter_builds_based_on_duration (some 0) o builds =
        filter_builds_based_on_duration none o builds ∧
      filter_builds_based_on_duration o (some 0) builds =
        filter_builds_based_on_duration o none builds ∧
      filter_builds_based_on_duration (some 0) (some 0) builds =
        some builds := by
  intro builds o
  refine ⟨?_, ?_, ?_⟩
  · simp [filter_builds_based_on_duration]
  · cases o with
    | none => simp [filter_builds_based_on_duration]
    | some s =>
      by_cases hs : s ≠ 0 <;> simp [filter_builds_based_on_duration, hs]
  · simp [filter_builds_based_on_duration]

/-! C5: fetch_builds / load_all_builds cache merging
(src/cia/buildkite.py lines 409-529). -/

/-- A raw build as handled by the fetch/cache layer, which consults only
its `number`. -/
structure BkBuild where
  number : ℤ
deriving DecidableEq

/-- fetch_builds: walk the upstream newest-first build list (pages
flattened), keeping builds strictly newer than
`only_newer_than_build_number` and stopping at the first one that is not
(the full fetch passes -1). -/
def fetch_builds (upstream : List BkBuild) (only_newer_than : ℤ) :
    List BkBuild :=
  upstream.takeWhile (fun b => decide (only_newer_than < b.number))

/-- load_all_builds cache handling: no cache → full fetch; cached list →
incremental fetch of builds newer than the number of the positionally first
cached build ("rely on sort order!"), appended after the cached list
(`builds.extend(new_builds)`). The freshness short-circuit (cache younger
than 60 minutes, returned unchanged) is omitted; indexing an empty cached
list (IndexError) is modelled as `none`. -/
def load_all_builds (cache : Option (List BkBuild)) (upstream : List BkBuild) :
    Option (List BkBuild) :=
  match cache with
  | none => some (fetch_builds upstream (-1))
  | some [] => none
  | some (newest :: rest) =>
    some ((newest :: rest) ++ fetch_builds upstream newest.number)

/-- C5 (code defect): across an initial full fetch and two incremental
runs, the cache loses its newest-first sort order (new builds are appended
at the end while the next run still reads index 0 as the newest build), so
the third run re-fetches builds 7 and 6 and the merged working set holds
two records for build number 7 (and 6) — the deduplication invariant is
violated by the code. -/
theorem cache_merge_duplicates :
    load_all_builds none [⟨5⟩, ⟨4⟩, ⟨3⟩, ⟨2⟩, ⟨1⟩] =
      some [⟨5⟩, ⟨4⟩, ⟨3⟩, ⟨2⟩, ⟨1⟩] ∧
    load_all_builds (some [⟨5⟩, ⟨4⟩, ⟨3⟩, ⟨2⟩, ⟨1⟩]) [⟨7⟩, ⟨6⟩, ⟨5⟩, ⟨4⟩] =
      some [⟨5⟩, ⟨4⟩, ⟨3⟩, ⟨2⟩, ⟨1⟩, ⟨7⟩, ⟨6⟩] ∧
    load_all_builds (some [⟨5⟩, ⟨4⟩, ⟨3⟩, ⟨2⟩, ⟨1⟩, ⟨7⟩, ⟨6⟩])
        [⟨8⟩, ⟨7⟩, ⟨6⟩, ⟨5⟩] =
      some [⟨5⟩, ⟨4⟩, ⟨3⟩, ⟨2⟩, ⟨1⟩, ⟨7⟩, ⟨6⟩, ⟨8⟩, ⟨7⟩, ⟨6⟩] ∧
    List.count (⟨7⟩ : BkBuild)
      [⟨5⟩, ⟨4⟩, ⟨3⟩, ⟨2⟩, ⟨1⟩, ⟨7⟩, ⟨6⟩, ⟨8⟩, ⟨7⟩, ⟨6⟩] = 2 := by
  refine ⟨?_, ?_, ?_, ?_⟩ <;> decide

end CiAnalysis
